import Mathlib

/-!
# Verification of the slpf scanline polygon fill (src/index.ts)

Shallow embedding of the TypeScript source of the `slpf` library.

Modelling conventions:
* JavaScript numbers are modelled as rationals (`ℚ`); every arithmetic
  operation performed by the source on the inputs we consider is exact in ℚ.
* JavaScript arrays are modelled as Lean lists, index 0 at the head;
  `push`/`pop` act on the end of the list.
* `Array.prototype.sort` with a consistent comparator is (since ES2019) a
  stable sort; a stable sort by a total preorder has a unique result, which
  we compute with a stable insertion sort (`jsSort`).
* The `while` loop of `slpfPoints`/`slpfFilledArray` can genuinely fail to
  terminate, so it is embedded with an explicit fuel parameter; exhausting
  the fuel yields the outcome `diverge`.  A thrown `TypeError` (reading a
  property of `undefined`) is the outcome `crash`.
* The pixel sink (`bindSetPixelWhite`, writing four bytes per call into a
  `Uint8ClampedArray`) is out of the algorithmic scope per the spec; the
  buffer is modelled as the sequence of `setPixelAt(x, y)` calls made.
-/

namespace Slpf

/-- `interface XYPoint { x: number; y: number }` -/
structure XYPoint where
  x : ℚ
  y : ℚ
deriving DecidableEq

/-- `interface Edge { point1: XYPoint; point2: XYPoint }` -/
structure Edge where
  point1 : XYPoint
  point2 : XYPoint
deriving DecidableEq

/-- Result of running an embedded JavaScript computation: a normal return
value, a thrown `TypeError` (`crash`), or failure to finish within the
given fuel (`diverge`). -/
inductive Outcome (α : Type) where
  | ok : α → Outcome α
  | crash : Outcome α
  | diverge : Outcome α
deriving DecidableEq

/-- `lerp`: x-value of the scanline/edge intersection, `Math.floor`ed.
Source: `Math.floor(((yScan - point1.y) / (point2.y - point1.y)) * (point2.x - point1.x) + point1.x)`. -/
def lerp (yScan : ℚ) (edge : Edge) : ℤ :=
  ⌊((yScan - edge.point1.y) / (edge.point2.y - edge.point1.y)) *
      (edge.point2.x - edge.point1.x) + edge.point1.x⌋

/-- `getYMin`: `point1.y <= point2.y ? point1.y : point2.y`. -/
def getYMin (edge : Edge) : ℚ :=
  if edge.point1.y ≤ edge.point2.y then edge.point1.y else edge.point2.y

/-- `getYMax`: `point1.y > point2.y ? point1.y : point2.y`. -/
def getYMax (edge : Edge) : ℚ :=
  if edge.point2.y < edge.point1.y then edge.point1.y else edge.point2.y

/-- `getXofYMin`: x-value of the endpoint with the smaller y. -/
def getXofYMin (edge : Edge) : ℚ :=
  if edge.point1.y ≤ edge.point2.y then edge.point1.x else edge.point2.x

/-- `getXofYMax`: x-value of the endpoint with the larger y. -/
def getXofYMax (edge : Edge) : ℚ :=
  if edge.point2.y < edge.point1.y then edge.point1.x else edge.point2.x

/-- Body of the `for` loop of `pointsToEdges`: `point1` is the previous
point, the list holds the points not yet visited.  An edge `{point1, point2}`
is pushed unless the two x-coordinates coincide. -/
def pointsToEdgesGo (point1 : XYPoint) : List XYPoint → List Edge
  | [] => []
  | point2 :: rest =>
    if point1.x ≠ point2.x then ⟨point1, point2⟩ :: pointsToEdgesGo point2 rest
    else pointsToEdgesGo point2 rest

/-- `pointsToEdges`: walk the loop once starting from
`point1 = points[points.length - 1]`.  For the empty list the loop body never
runs and the (undefined) initial `point1` is never read. -/
def pointsToEdges (points : List XYPoint) : List Edge :=
  match points.getLast? with
  | none => []
  | some point1 => pointsToEdgesGo point1 points

/-- The pop/push loop of `moveEdges`, acting on the reversed Edge Table
(so the end of the JS array is the head of this list):
`while (ET.length > 0 && yScan === getYMin(ET[ET.length - 1])) AET.push(ET.pop())`. -/
def moveEdgesGo (yScan : ℚ) : List Edge → List Edge → List Edge × List Edge
  | [], AET => ([], AET)
  | e :: rest, AET =>
    if yScan = getYMin e then moveEdgesGo yScan rest (AET ++ [e])
    else (e :: rest, AET)

/-- `moveEdges`: move edges whose minimum y equals `yScan` from the tail of
the Edge Table to the Active Edge Table. -/
def moveEdges (yScan : ℚ) (ET AET : List Edge) : List Edge × List Edge :=
  let r := moveEdgesGo yScan ET.reverse AET
  (r.1.reverse, r.2)

/-- The index loop of `removeEdges`, which removes expired edges by popping
the last element and (when the popped element is not the inspected one)
writing it over index `i`, re-examining index `i` afterwards (`i--` followed
by the loop increment).  The loop always makes progress, decreasing
`AET.length - i`; the structural `fuel` parameter is a strict upper bound on
the number of remaining iterations, so with `fuel = AET.length - i + 1` the
`fuel = 0` branch is never reached. -/
def removeEdgesGo (yScan : ℚ) : Nat → List Edge → Nat → List Edge
  | 0, AET, _ => AET
  | fuel + 1, AET, i =>
    if h : i < AET.length then
      if yScan ≥ getYMax (AET.get ⟨i, h⟩) then
        let last := AET.getLast
          (List.ne_nil_of_length_pos (Nat.lt_of_le_of_lt (Nat.zero_le i) h))
        let rest := AET.dropLast
        if i < rest.length then removeEdgesGo yScan fuel (rest.set i last) i
        else removeEdgesGo yScan fuel rest (i + 1)
      else removeEdgesGo yScan fuel AET (i + 1)
    else AET

/-- `removeEdges`: remove from the AET every edge with `yScan >= getYMax`. -/
def removeEdges (yScan : ℚ) (AET : List Edge) : List Edge :=
  removeEdgesGo yScan (AET.length + 1) AET 0

/-- One step of a stable insertion sort: the new element is placed before
the first element it compares less-or-equal to. -/
def jsInsert {α : Type} (le : α → α → Bool) (a : α) : List α → List α
  | [] => [a]
  | b :: l => if le a b then a :: b :: l else b :: jsInsert le a l

/-- Stable sort by the total preorder decided by `le`; this computes the
unique output of any stable sort (such as `Array.prototype.sort`, stable per
ES2019) with a consistent comparator inducing `le`. -/
def jsSort {α : Type} (le : α → α → Bool) : List α → List α
  | [] => []
  | a :: l => jsInsert le a (jsSort le l)

/-- The ET comparator `(e1, e2) => getYMin(e2) - getYMin(e1)` (descending
minimum y), as the Boolean relation `cmp(e1, e2) ≤ 0`. -/
def etLe (e1 e2 : Edge) : Bool :=
  decide (getYMin e2 ≤ getYMin e1)

/-- The AET comparator: ascending `getXofYMin`, ties broken by ascending
`getXofYMax`, as the Boolean relation `cmp(e1, e2) ≤ 0`. -/
def aetLe (e1 e2 : Edge) : Bool :=
  decide (getXofYMin e1 < getXofYMin e2 ∨
    (getXofYMin e1 = getXofYMin e2 ∧ getXofYMax e1 ≤ getXofYMax e2))

/-- `getSpans`: one intersection point per active edge, in AET order. -/
def getSpans (yScan : ℚ) (AET : List Edge) : List XYPoint :=
  AET.map (fun edge => ⟨(lerp yScan edge : ℚ), yScan⟩)

/-- The `for (let {x} = point1; x < point2.x; x++)` loop of `collectSpan`.
The fuel `⌈point2.x - point1.x⌉.toNat` is exactly the number of iterations
the source loop performs, so the guard `x < x2` and the fuel run out
together. -/
def collectSpanGo (y x2 : ℚ) : Nat → ℚ → List XYPoint
  | 0, _ => []
  | fuel + 1, x => if x < x2 then ⟨x, y⟩ :: collectSpanGo y x2 fuel (x + 1) else []

/-- `collectSpan`: all points `(x, y)` with `point1.x ≤ x < point2.x`,
`x` stepping by 1 from `point1.x`. -/
def collectSpan (edge : Edge) (y : ℚ) : List XYPoint :=
  collectSpanGo y edge.point2.x (⌈edge.point2.x - edge.point1.x⌉.toNat) edge.point1.x

/-- The loop of `fillSpan`, recording each `setPixelAt(x, y)` call. -/
def fillSpanGo (y x2 : ℚ) : Nat → ℚ → List (ℚ × ℚ)
  | 0, _ => []
  | fuel + 1, x => if x < x2 then (x, y) :: fillSpanGo y x2 fuel (x + 1) else []

/-- `fillSpan`: invoke the pixel sink for every x in `[point1.x, point2.x)`. -/
def fillSpan (edge : Edge) (y : ℚ) : List (ℚ × ℚ) :=
  fillSpanGo y edge.point2.x (⌈edge.point2.x - edge.point1.x⌉.toNat) edge.point1.x

/-- `gatherSpans`: pair up `spans[i]`/`spans[i+1]` and concatenate the
collected spans.  When `spans` has odd length the final pair reads
`spans[i+1] = undefined` and `collectSpan` dereferences `point2.x`,
throwing a `TypeError`; this is the `none` outcome. -/
def gatherSpans (spans : List XYPoint) (yScan : ℚ) : Option (List XYPoint) :=
  match spans with
  | [] => some []
  | [_] => none
  | point1 :: point2 :: rest =>
    match gatherSpans rest yScan with
    | some tail => some (collectSpan ⟨point1, point2⟩ yScan ++ tail)
    | none => none

/-- `drawSpans`: like `gatherSpans` but invoking the pixel sink; the odd
case throws the same `TypeError` inside `fillSpan`. -/
def drawSpans (spans : List XYPoint) (yScan : ℚ) : Option (List (ℚ × ℚ)) :=
  match spans with
  | [] => some []
  | [_] => none
  | point1 :: point2 :: rest =>
    match drawSpans rest yScan with
    | some tail => some (fillSpan ⟨point1, point2⟩ yScan ++ tail)
    | none => none

/-- The AET management prefix of one scanline iteration, shared verbatim by
`slpfPoints` and `slpfFilledArray`: `moveEdges`, `removeEdges`, then the AET
sort. -/
def edgeStep (yScan : ℚ) (s : List Edge × List Edge) : List Edge × List Edge :=
  let m := moveEdges yScan s.1 s.2
  (m.1, jsSort aetLe (removeEdges yScan m.2))

/-- Iterated `edgeStep`, with the scanline advancing by 1 each step: the
successive (Edge Table, Active Edge Table) states of the scanline loop. -/
def edgeIter : Nat → ℚ → List Edge × List Edge → List Edge × List Edge
  | 0, _, s => s
  | n + 1, yScan, s => edgeIter n (yScan + 1) (edgeStep yScan s)

/-- The scanline `while` loop of `slpfPoints`:
`while (ET.length > 0 || AET.length > 0)` manage the AET, gather the spans
of this scanline, advance `yScan`. -/
def scanLoop (fuel : Nat) (ET AET : List Edge) (yScan : ℚ)
    (gathered : List (List XYPoint)) : Outcome (List (List XYPoint)) :=
  if ET = [] ∧ AET = [] then .ok gathered
  else
    match fuel with
    | 0 => .diverge
    | fuel + 1 =>
      let s := edgeStep yScan (ET, AET)
      match gatherSpans (getSpans yScan s.2) yScan with
      | some pts => scanLoop fuel s.1 s.2 (yScan + 1) (gathered ++ [pts])
      | none => .crash

/-- The part of `slpfPoints` after the edge builder has run: sort the Edge
Table descending by minimum y, read `getYMin(ET[ET.length - 1])` (a throwing
`undefined` dereference when the table is empty), run the scanline loop, and
flatten the gathered per-scanline lists (`reduce(concat)`). -/
def slpfPointsAfterEdges (fuel : Nat) (edges : List Edge) : Outcome (List XYPoint) :=
  if hET : jsSort etLe edges = [] then .crash
  else
    match scanLoop fuel (jsSort etLe edges) []
        (getYMin ((jsSort etLe edges).getLast hET)) [] with
    | .ok gathered => .ok gathered.flatten
    | .crash => .crash
    | .diverge => .diverge

/-- `slpfPoints`.  With fewer than 3 points it returns `[]`. -/
def slpfPoints (fuel : Nat) (points : List XYPoint) : Outcome (List XYPoint) :=
  if points.length < 3 then .ok []
  else slpfPointsAfterEdges fuel (pointsToEdges points)

/-- The scanline `while` loop of `slpfFilledArray`, accumulating the pixel
sink calls instead of gathering points. -/
def scanLoopFill (fuel : Nat) (ET AET : List Edge) (yScan : ℚ)
    (img : List (ℚ × ℚ)) : Outcome (List (ℚ × ℚ)) :=
  if ET = [] ∧ AET = [] then .ok img
  else
    match fuel with
    | 0 => .diverge
    | fuel + 1 =>
      let s := edgeStep yScan (ET, AET)
      match drawSpans (getSpans yScan s.2) yScan with
      | some calls => scanLoopFill fuel s.1 s.2 (yScan + 1) (img ++ calls)
      | none => .crash

/-- `slpfFilledArray`.  The result pairs the value returned to the caller
(`none` = `undefined`) with the pixel sink calls made into the freshly
allocated buffer.  With fewer than 3 points the source runs `return;`
before allocating, so nothing is painted and `undefined` is returned; on
the main path the function body simply ends with no `return` statement, so
it also returns `undefined`. -/
def slpfFilledAfterEdges (fuel : Nat) (edges : List Edge) :
    Outcome (Option (List (ℚ × ℚ)) × List (ℚ × ℚ)) :=
  if hET : jsSort etLe edges = [] then .crash
  else
    match scanLoopFill fuel (jsSort etLe edges) []
        (getYMin ((jsSort etLe edges).getLast hET)) [] with
    | .ok img => .ok (none, img)
    | .crash => .crash
    | .diverge => .diverge

def slpfFilledArray (fuel : Nat) (points : List XYPoint) (width height : ℚ) :
    Outcome (Option (List (ℚ × ℚ)) × List (ℚ × ℚ)) :=
  if points.length < 3 then .ok (none, [])
  else slpfFilledAfterEdges fuel (pointsToEdges points)

/-- State-passing rendering of the loop of `pointsToEdges`: the contents of
the caller's `points` array are threaded through every iteration, so that a
mutation of the array by the loop would be observable in the second
component.  Every operation the source performs on `points` is a read
(`points.length`, `points[i]`), so reads return the state unchanged. -/
def pointsToEdgesStGo (st : List XYPoint) (point1 : XYPoint) (i : Nat)
    (acc : List Edge) : List Edge × List XYPoint :=
  if h : i < st.length then
    let point2 := st.get ⟨i, h⟩
    pointsToEdgesStGo st point2 (i + 1)
      (if point1.x ≠ point2.x then acc ++ [⟨point1, point2⟩] else acc)
  else (acc, st)
termination_by st.length - i

/-- State-passing rendering of `slpfPoints`: alongside the outcome it
returns the final contents of the caller's `points` array.  After
`pointsToEdges`, the source never touches `points` again. -/
def slpfPointsSt (fuel : Nat) (points : List XYPoint) :
    Outcome (List XYPoint) × List XYPoint :=
  if points.length < 3 then (.ok [], points)
  else
    match points.getLast? with
    | none => (.crash, points)
    | some point1 =>
      (slpfPointsAfterEdges fuel (pointsToEdgesStGo points point1 0 []).1,
       (pointsToEdgesStGo points point1 0 []).2)

/-- Modelled from the spec: "walk the loop once, forming an edge between
each consecutive pair (wrapping last→first)" — the consecutive pairs of the
closed vertex loop, as directed edges. -/
def loopPairsSpec (points : List XYPoint) : List Edge :=
  match points with
  | [] => []
  | p :: ps =>
    List.zipWith (fun a b => Edge.mk a b)
      (List.getLast (p :: ps) (by simp) :: p :: ps) (p :: ps)

/-- Modelled from the spec: the edge builder's contract — the loop's
consecutive pairs, discarding any edge whose two endpoints share the same
x-coordinate, each kept edge retaining its original point order. -/
def edgesSpec (points : List XYPoint) : List Edge :=
  (loopPairsSpec points).filter (fun e => decide (e.point1.x ≠ e.point2.x))

/-- The spec's axis-aligned test square `(0,0),(4,0),(4,4),(0,4)`. -/
def squarePoints : List XYPoint := [⟨0, 0⟩, ⟨4, 0⟩, ⟨4, 4⟩, ⟨0, 4⟩]

/-- The 16 points the spec requires for `squarePoints`: all integer `(x, y)`
with `0 ≤ x < 4` and `0 ≤ y < 4`, scanline by scanline. -/
def squareInterior : List XYPoint :=
  (List.range 4).flatMap (fun y => (List.range 4).map (fun x => ⟨(x : ℚ), (y : ℚ)⟩))

/-- A triangle whose edge `((2,1),(1,1/2))` has minimum y-value `1/2`: the
integer-stepping scanline never equals `1/2`, so `moveEdges` (which tests
`yScan === getYMin`) never activates it and the Edge Table never empties. -/
def hangPoints : List XYPoint := [⟨0, 0⟩, ⟨2, 1⟩, ⟨1, 1/2⟩]

/-- The edge of `hangPoints` that is never activated. -/
def hangEdge : Edge := ⟨⟨2, 1⟩, ⟨1, 1/2⟩⟩


/-- The two edges the builder keeps for `squarePoints`: its bottom and top
(horizontal) sides.  The vertical sides are discarded by the same-x test. -/
def squareEdgeBottom : Edge := ⟨⟨0, 0⟩, ⟨4, 0⟩⟩

/-- The top side of `squarePoints`, as walked. -/
def squareEdgeTop : Edge := ⟨⟨4, 4⟩, ⟨0, 4⟩⟩

/-- First kept edge of `hangPoints`. -/
def hangEdgeA : Edge := ⟨⟨1, 1/2⟩, ⟨0, 0⟩⟩

/-- Second kept edge of `hangPoints`. -/
def hangEdgeB : Edge := ⟨⟨0, 0⟩, ⟨2, 1⟩⟩

/-- The (Edge Table, Active Edge Table) pair as initialised by
`slpfPoints`/`slpfFilledArray`: the sorted builder output and an empty AET. -/
def initialEdgeState (points : List XYPoint) : List Edge × List Edge :=
  (jsSort etLe (pointsToEdges points), [])

/-! ## General lemmas about the embedded operations -/

theorem jsInsert_perm {α : Type} (le : α → α → Bool) (a : α) (l : List α) :
    List.Perm (jsInsert le a l) (a :: l) := by
  induction l with
  | nil => exact List.Perm.refl _
  | cons b t ih =>
    unfold jsInsert
    split
    · exact List.Perm.refl _
    · exact (List.Perm.cons b ih).trans (List.Perm.swap a b t)

theorem jsSort_perm {α : Type} (le : α → α → Bool) (l : List α) :
    List.Perm (jsSort le l) l := by
  induction l with
  | nil => exact List.Perm.refl _
  | cons a t ih => exact (jsInsert_perm le a (jsSort le t)).trans (List.Perm.cons a ih)

theorem pointsToEdgesGo_eq (point1 : XYPoint) (l : List XYPoint) :
    pointsToEdgesGo point1 l =
      (List.zipWith (fun a b => Edge.mk a b) (point1 :: l) l).filter
        (fun e => decide (e.point1.x ≠ e.point2.x)) := by
  induction l generalizing point1 with
  | nil => rfl
  | cons point2 rest ih =>
    simp only [pointsToEdgesGo, List.zipWith_cons_cons, List.filter_cons, ih point2]
    by_cases hx : point1.x = point2.x
    · simp [hx]
    · simp [hx]

/-! ## Claim theorems -/

/-- C8: for every edge whose endpoints have different y-values and every
scanline value, `lerp` equals the floor of
`point1.x + (y - point1.y) / (point2.y - point1.y) * (point2.x - point1.x)`,
the linear interpolation of the edge at `y` floored to an integer. -/
theorem lerp_spec (yScan : ℚ) (edge : Edge) (h : edge.point1.y ≠ edge.point2.y) :
    lerp yScan edge =
      ⌊edge.point1.x + (yScan - edge.point1.y) / (edge.point2.y - edge.point1.y) *
          (edge.point2.x - edge.point1.x)⌋ := by
  unfold lerp
  congr 1
  ring

theorem lerp_spec_witness :
    ((⟨⟨0, 0⟩, ⟨2, 2⟩⟩ : Edge).point1.y ≠ (⟨⟨0, 0⟩, ⟨2, 2⟩⟩ : Edge).point2.y) ∧
      lerp 1 ⟨⟨0, 0⟩, ⟨2, 2⟩⟩ = 1 := by
  refine ⟨by norm_num, ?_⟩
  rw [lerp_spec 1 ⟨⟨0, 0⟩, ⟨2, 2⟩⟩ (by norm_num)]
  norm_num

/-- C6: `pointsToEdges` walks the loop once, forming one edge per
consecutive pair of points (wrapping last→first), keeps exactly those edges
whose endpoints have distinct x-coordinates, in walk order with original
point order.  (`pointsToEdges` is a pure function of its input, so it has
no side effects on the input.) -/
theorem pointsToEdges_spec_equiv (points : List XYPoint) :
    pointsToEdges points = edgesSpec points := by
  cases points with
  | nil => rfl
  | cons p ps =>
    unfold pointsToEdges edgesSpec loopPairsSpec
    rw [List.getLast?_eq_getLast (p :: ps) (by simp)]
    exact pointsToEdgesGo_eq _ _

/-- C3 (what the code actually does): on every odd-length spans list both
`gatherSpans` and `drawSpans` read `spans[i + 1] = undefined` on the final
pair and the span loop dereferences `point2.x`, throwing a `TypeError`
(outcome `none`) instead of completing with a recovery policy. -/
theorem odd_spans_crash :
    ∀ (spans : List XYPoint) (yScan : ℚ), spans.length % 2 = 1 →
      gatherSpans spans yScan = none ∧ drawSpans spans yScan = none
  | [], _, h => by simp at h
  | [_], _, _ => ⟨rfl, rfl⟩
  | p1 :: p2 :: rest, yScan, h => by
    have h2 : rest.length % 2 = 1 := by simp at h; omega
    have ih := odd_spans_crash rest yScan h2
    simp [gatherSpans, drawSpans, ih.1, ih.2]

theorem odd_spans_crash_witness :
    ([(⟨0, 0⟩ : XYPoint)].length % 2 = 1) ∧
      gatherSpans [(⟨0, 0⟩ : XYPoint)] 0 = none ∧
      drawSpans [(⟨0, 0⟩ : XYPoint)] 0 = none :=
  ⟨by simp, odd_spans_crash _ 0 (by simp)⟩

/-- C4: with fewer than 3 input points the fill is a no-op in both output
modes: `slpfPoints` returns `[]` and `slpfFilledArray` returns `undefined`
having made no pixel write. -/
theorem short_input_empty (fuel : Nat) (points : List XYPoint) (width height : ℚ)
    (h : points.length < 3) :
    slpfPoints fuel points = .ok [] ∧
      slpfFilledArray fuel points width height = .ok (none, []) :=
  ⟨by simp [slpfPoints, h], by simp [slpfFilledArray, h]⟩

theorem short_input_empty_witness :
    ([(⟨0, 0⟩ : XYPoint), ⟨1, 1⟩].length < 3) ∧
      slpfPoints 0 [⟨0, 0⟩, ⟨1, 1⟩] = .ok [] ∧
      slpfFilledArray 0 [⟨0, 0⟩, ⟨1, 1⟩] 10 10 = .ok (none, []) :=
  ⟨by simp, short_input_empty 0 _ 10 10 (by simp)⟩

theorem pointsToEdgesGo_same_x (c : ℚ) :
    ∀ (l : List XYPoint) (point1 : XYPoint), point1.x = c → (∀ q ∈ l, q.x = c) →
      pointsToEdgesGo point1 l = []
  | [], _, _, _ => rfl
  | point2 :: rest, point1, h1, hl => by
    have h2 : point2.x = c := hl point2 (by simp)
    have hne : ¬ point1.x ≠ point2.x := by rw [h1, h2]; simp
    simp only [pointsToEdgesGo, if_neg hne]
    exact pointsToEdgesGo_same_x c rest point2 h2 (fun q hq => hl q (by simp [hq]))

/-- C10: on every input of length ≥ 3 whose points all share one
x-coordinate, the edge builder returns no edges and `slpfPoints` reads
`ET[ET.length - 1] = undefined` inside `getYMin`, throwing: the length
guard alone does not make `slpfPoints` total. -/
theorem same_x_input_crashes (fuel : Nat) (points : List XYPoint) (c : ℚ)
    (h3 : 3 ≤ points.length) (hx : ∀ q ∈ points, q.x = c) :
    pointsToEdges points = [] ∧ slpfPoints fuel points = .crash := by
  have hpe : pointsToEdges points = [] := by
    unfold pointsToEdges
    cases hL : points.getLast? with
    | none => rfl
    | some p1 =>
      exact pointsToEdgesGo_same_x c points p1
        (hx p1 (List.mem_of_getLast?_eq_some hL)) hx
  have h3n : ¬ (points.length < 3) := by omega
  exact ⟨hpe, by simp [slpfPoints, slpfPointsAfterEdges, hpe, jsSort, h3n]⟩

theorem same_x_input_crashes_witness :
    (3 ≤ [(⟨1, 0⟩ : XYPoint), ⟨1, 1⟩, ⟨1, 2⟩].length) ∧
      pointsToEdges [(⟨1, 0⟩ : XYPoint), ⟨1, 1⟩, ⟨1, 2⟩] = [] ∧
      slpfPoints 0 [(⟨1, 0⟩ : XYPoint), ⟨1, 1⟩, ⟨1, 2⟩] = .crash :=
  ⟨by simp, same_x_input_crashes 0 _ 1 (by simp)
    (by intro q hq; simp only [List.mem_cons, List.mem_singleton] at hq
        rcases hq with rfl | rfl | rfl | h <;> first | rfl | simp at h)⟩


theorem pointsToEdgesStGo_st_aux (st : List XYPoint) :
    ∀ (k i : Nat), st.length - i ≤ k → ∀ (point1 : XYPoint) (acc : List Edge),
      (pointsToEdgesStGo st point1 i acc).2 = st := by
  intro k
  induction k with
  | zero =>
    intro i hi point1 acc
    rw [pointsToEdgesStGo, dif_neg (by omega)]
  | succ k ih =>
    intro i hi point1 acc
    by_cases h : i < st.length
    · rw [pointsToEdgesStGo, dif_pos h]
      exact ih (i + 1) (by omega) _ _
    · rw [pointsToEdgesStGo, dif_neg h]

theorem pointsToEdgesStGo_st (st : List XYPoint) (point1 : XYPoint) (i : Nat)
    (acc : List Edge) : (pointsToEdgesStGo st point1 i acc).2 = st :=
  pointsToEdgesStGo_st_aux st (st.length - i) i (Nat.le_refl _) point1 acc

theorem pointsToEdgesStGo_eq_aux (st : List XYPoint) :
    ∀ (k i : Nat), st.length - i ≤ k → ∀ (point1 : XYPoint) (acc : List Edge),
      (pointsToEdgesStGo st point1 i acc).1 = acc ++ pointsToEdgesGo point1 (st.drop i) := by
  intro k
  induction k with
  | zero =>
    intro i hi point1 acc
    rw [pointsToEdgesStGo, dif_neg (by omega), List.drop_eq_nil_of_le (by omega)]
    simp [pointsToEdgesGo]
  | succ k ih =>
    intro i hi point1 acc
    by_cases h : i < st.length
    · rw [pointsToEdgesStGo, dif_pos h, List.drop_eq_getElem_cons h]
      show (pointsToEdgesStGo st (st.get ⟨i, h⟩) (i + 1)
          (if point1.x ≠ (st.get ⟨i, h⟩).x then acc ++ [⟨point1, st.get ⟨i, h⟩⟩]
           else acc)).1 = _
      rw [ih (i + 1) (by omega)]
      simp only [pointsToEdgesGo, List.get_eq_getElem]
      by_cases hx : point1.x ≠ st[i].x
      · rw [if_pos hx, if_pos hx, List.append_assoc]
        rfl
      · rw [if_neg hx, if_neg hx]
    · rw [pointsToEdgesStGo, dif_neg h, List.drop_eq_nil_of_le (by omega)]
      simp [pointsToEdgesGo]

theorem pointsToEdgesStGo_eq (st : List XYPoint) (point1 : XYPoint) (i : Nat)
    (acc : List Edge) :
    (pointsToEdgesStGo st point1 i acc).1 = acc ++ pointsToEdgesGo point1 (st.drop i) :=
  pointsToEdgesStGo_eq_aux st (st.length - i) i (Nat.le_refl _) point1 acc

/-- C9: the fill has no hidden mutable state and does not mutate its input.
In the state-passing rendering `slpfPointsSt` (which threads the contents of
the caller's `points` array through every array operation the source
performs), the array contents after a call equal the input, a second call on
that state returns the same outcome as the first, and the outcome agrees
with `slpfPoints`. -/
theorem fill_twice_identical (fuel : Nat) (points : List XYPoint) :
    (slpfPointsSt fuel points).2 = points ∧
      (slpfPointsSt fuel ((slpfPointsSt fuel points).2)).1 = (slpfPointsSt fuel points).1 ∧
      (slpfPointsSt fuel points).1 = slpfPoints fuel points := by
  have hst : (slpfPointsSt fuel points).2 = points := by
    unfold slpfPointsSt
    by_cases h : points.length < 3
    · rw [if_pos h]
    · rw [if_neg h]
      cases hL : points.getLast? with
      | none => rfl
      | some p1 => simp [pointsToEdgesStGo_st]
  have h1 : (slpfPointsSt fuel points).1 = slpfPoints fuel points := by
    unfold slpfPointsSt slpfPoints
    by_cases h : points.length < 3
    · rw [if_pos h, if_pos h]
    · rw [if_neg h, if_neg h]
      cases hL : points.getLast? with
      | none =>
        rw [List.getLast?_eq_none_iff] at hL
        subst hL
        simp at h
      | some p1 =>
        have hpe : pointsToEdges points = pointsToEdgesGo p1 points := by
          unfold pointsToEdges
          rw [hL]
        have hgo : (pointsToEdgesStGo points p1 0 []).1 = pointsToEdgesGo p1 points := by
          rw [pointsToEdgesStGo_eq]
          simp
        show slpfPointsAfterEdges fuel (pointsToEdgesStGo points p1 0 []).1 =
          slpfPointsAfterEdges fuel (pointsToEdges points)
        rw [hgo, hpe]
  exact ⟨hst, by rw [hst], h1⟩


theorem scanLoop_exit (fuel : Nat) (yScan : ℚ) (g : List (List XYPoint)) :
    scanLoop fuel [] [] yScan g = .ok g := by
  rw [scanLoop.eq_def]
  simp

theorem scanLoop_zero (ET AET : List Edge) (yScan : ℚ) (g : List (List XYPoint))
    (hne : ¬ (ET = [] ∧ AET = [])) : scanLoop 0 ET AET yScan g = .diverge := by
  rw [scanLoop.eq_def, if_neg hne]

theorem scanLoop_step (fuel fuel2 : Nat) (hf : fuel = fuel2 + 1)
    (ET AET ET2 AET2 : List Edge) (yScan : ℚ) (g : List (List XYPoint))
    (pts : List XYPoint) (hne : ¬ (ET = [] ∧ AET = []))
    (hstep : edgeStep yScan (ET, AET) = (ET2, AET2))
    (hg : gatherSpans (getSpans yScan AET2) yScan = some pts) :
    scanLoop fuel ET AET yScan g = scanLoop fuel2 ET2 AET2 (yScan + 1) (g ++ [pts]) := by
  subst hf
  rw [scanLoop.eq_def, if_neg hne]
  simp only [hstep, hg]

theorem scanLoopFill_exit (fuel : Nat) (yScan : ℚ) (img : List (ℚ × ℚ)) :
    scanLoopFill fuel [] [] yScan img = .ok img := by
  rw [scanLoopFill.eq_def]
  simp

theorem scanLoopFill_step (fuel fuel2 : Nat) (hf : fuel = fuel2 + 1)
    (ET AET ET2 AET2 : List Edge) (yScan : ℚ) (img : List (ℚ × ℚ))
    (calls : List (ℚ × ℚ)) (hne : ¬ (ET = [] ∧ AET = []))
    (hstep : edgeStep yScan (ET, AET) = (ET2, AET2))
    (hg : drawSpans (getSpans yScan AET2) yScan = some calls) :
    scanLoopFill fuel ET AET yScan img =
      scanLoopFill fuel2 ET2 AET2 (yScan + 1) (img ++ calls) := by
  subst hf
  rw [scanLoopFill.eq_def, if_neg hne]
  simp only [hstep, hg]

theorem slpfPoints_eq_loop (fuel : Nat) (points : List XYPoint) (ET : List Edge)
    (hlen : ¬ points.length < 3) (hsort : jsSort etLe (pointsToEdges points) = ET)
    (hne : ET ≠ []) (y0 : ℚ) (hy0 : getYMin (ET.getLast hne) = y0) :
    slpfPoints fuel points =
      match scanLoop fuel ET [] y0 [] with
      | .ok gathered => .ok gathered.flatten
      | .crash => .crash
      | .diverge => .diverge := by
  subst hsort
  subst hy0
  rw [slpfPoints, if_neg hlen, slpfPointsAfterEdges, dif_neg hne]

theorem slpfFilled_eq_loop (fuel : Nat) (points : List XYPoint) (width height : ℚ)
    (ET : List Edge) (hlen : ¬ points.length < 3)
    (hsort : jsSort etLe (pointsToEdges points) = ET) (hne : ET ≠ []) (y0 : ℚ)
    (hy0 : getYMin (ET.getLast hne) = y0) :
    slpfFilledArray fuel points width height =
      match scanLoopFill fuel ET [] y0 [] with
      | .ok img => .ok (none, img)
      | .crash => .crash
      | .diverge => .diverge := by
  subst hsort
  subst hy0
  rw [slpfFilledArray, if_neg hlen, slpfFilledAfterEdges, dif_neg hne]

theorem square_ET :
    jsSort etLe (pointsToEdges squarePoints) = [squareEdgeTop, squareEdgeBottom] := by
  norm_num [squarePoints, pointsToEdges, pointsToEdgesGo, jsSort, jsInsert, etLe,
    getYMin, squareEdgeTop, squareEdgeBottom]

theorem square_step0 : edgeStep 0 ([squareEdgeTop, squareEdgeBottom], []) =
    ([squareEdgeTop], []) := by
  norm_num [edgeStep, moveEdges, moveEdgesGo, removeEdges, removeEdgesGo, jsSort,
    jsInsert, getYMin, getYMax, aetLe, getXofYMin, getXofYMax, squareEdgeTop,
    squareEdgeBottom]

theorem square_stepMid (y : ℚ) (hy : y ≠ 4) :
    edgeStep y ([squareEdgeTop], []) = ([squareEdgeTop], []) := by
  norm_num [edgeStep, moveEdges, moveEdgesGo, removeEdges, removeEdgesGo, jsSort,
    jsInsert, getYMin, getYMax, squareEdgeTop, hy]

theorem square_step4 : edgeStep 4 ([squareEdgeTop], []) = ([], []) := by
  norm_num [edgeStep, moveEdges, moveEdgesGo, removeEdges, removeEdgesGo, jsSort,
    jsInsert, getYMin, getYMax, squareEdgeTop]

/-- C1 (what the code actually does): on the spec test square
`(0,0),(4,0),(4,4),(0,4)` the fill returns no points at all.  The builder
discards the two vertical sides (same-x test), the two kept horizontal sides
have `getYMin = getYMax` and are deactivated in the same scanline iteration
that activates them — before spans are computed — so every scanline
contributes an empty span list. -/
theorem square_fill_returns_no_points : slpfPoints 8 squarePoints = .ok [] := by
  rw [slpfPoints_eq_loop 8 squarePoints [squareEdgeTop, squareEdgeBottom]
    (by norm_num [squarePoints]) square_ET (by simp) 0
    (by show getYMin squareEdgeBottom = 0; norm_num [getYMin, squareEdgeBottom])]
  rw [scanLoop_step 8 7 (by norm_num) _ _ _ _ _ _ _ (by simp) square_step0 rfl]
  norm_num
  rw [scanLoop_step 7 6 (by norm_num) _ _ _ _ _ _ _ (by simp)
    (square_stepMid 1 (by norm_num)) rfl]
  norm_num
  rw [scanLoop_step 6 5 (by norm_num) _ _ _ _ _ _ _ (by simp)
    (square_stepMid 2 (by norm_num)) rfl]
  norm_num
  rw [scanLoop_step 5 4 (by norm_num) _ _ _ _ _ _ _ (by simp)
    (square_stepMid 3 (by norm_num)) rfl]
  norm_num
  rw [scanLoop_step 4 3 (by norm_num) _ _ _ _ _ _ _ (by simp) square_step4 rfl]
  rw [scanLoop_exit]
  norm_num


theorem hang_ET :
    jsSort etLe (pointsToEdges hangPoints) = [hangEdge, hangEdgeA, hangEdgeB] := by
  norm_num [hangPoints, pointsToEdges, pointsToEdgesGo, jsSort, jsInsert, etLe,
    getYMin, hangEdge, hangEdgeA, hangEdgeB]

theorem hang_step0 : edgeStep 0 ([hangEdge, hangEdgeA, hangEdgeB], []) =
    ([hangEdge], [hangEdgeA, hangEdgeB]) := by
  norm_num [edgeStep, moveEdges, moveEdgesGo, removeEdges, removeEdgesGo, jsSort,
    jsInsert, getYMin, getYMax, aetLe, getXofYMin, getXofYMax, hangEdge, hangEdgeA,
    hangEdgeB]

theorem hang_gather0 :
    gatherSpans (getSpans 0 [hangEdgeA, hangEdgeB]) 0 = some [] := by
  norm_num [getSpans, gatherSpans, lerp, collectSpan, collectSpanGo, hangEdgeA,
    hangEdgeB]

theorem hang_step1 : edgeStep (0 + 1) ([hangEdge], [hangEdgeA, hangEdgeB]) =
    ([hangEdge], []) := by
  norm_num [edgeStep, moveEdges, moveEdgesGo, removeEdges, removeEdgesGo, jsSort,
    jsInsert, getYMin, getYMax, hangEdge, hangEdgeA, hangEdgeB]

theorem hang_stepTail (y : ℚ) (hy : 2 ≤ y) :
    edgeStep y ([hangEdge], []) = ([hangEdge], []) := by
  have hy2 : ¬ (y = 1 / 2) := by
    intro hc
    rw [hc] at hy
    norm_num at hy
  norm_num [edgeStep, moveEdges, moveEdgesGo, removeEdges, removeEdgesGo, jsSort,
    jsInsert, getYMin, getYMax, hangEdge, hy2]

theorem scanLoop_hangEdge (fuel : Nat) :
    ∀ (y : ℚ) (g : List (List XYPoint)), 2 ≤ y →
      scanLoop fuel [hangEdge] [] y g = .diverge := by
  induction fuel with
  | zero =>
    intro y g hy
    exact scanLoop_zero _ _ _ _ (by simp)
  | succ fuel ih =>
    intro y g hy
    rw [scanLoop_step (fuel + 1) fuel rfl _ _ _ _ _ _ _ (by simp)
      (hang_stepTail y hy) rfl]
    exact ih (y + 1) _ (by linarith)

/-- C2 (what the code actually does): the scanline loop of `slpfPoints` has
no iteration cap and need not terminate.  On `hangPoints` the edge
`((2,1),(1,1/2))` has minimum y `1/2`; `moveEdges` tests
`yScan === getYMin` and `yScan` only takes the integer values `0, 1, 2, …`,
so the edge is never activated, the Edge Table never empties, and the loop
runs forever: for every fuel the embedded loop fails to finish. -/
theorem hang_input_diverges (fuel : Nat) : slpfPoints fuel hangPoints = .diverge := by
  rw [slpfPoints_eq_loop fuel hangPoints [hangEdge, hangEdgeA, hangEdgeB]
    (by norm_num [hangPoints]) hang_ET (by simp) 0
    (by show getYMin hangEdgeB = 0; norm_num [getYMin, hangEdgeB])]
  rcases fuel with _ | fuel
  · rw [scanLoop_zero _ _ _ _ (by simp)]
  rcases fuel with _ | fuel
  · rw [scanLoop_step 1 0 rfl _ _ _ _ _ _ _ (by simp) hang_step0 hang_gather0]
    rw [scanLoop_zero _ _ _ _ (by simp)]
  rw [scanLoop_step (fuel + 1 + 1) (fuel + 1) rfl _ _ _ _ _ _ _ (by simp)
    hang_step0 hang_gather0]
  rw [scanLoop_step (fuel + 1) fuel rfl _ _ _ _ _ _ _ (by simp) hang_step1 rfl]
  rw [scanLoop_hangEdge fuel (0 + 1 + 1) _ (by norm_num)]

/-- C5: `slpfFilledArray` never returns the buffer it allocates and paints:
whenever a call completes normally, the value handed back to the caller is
`undefined` (the source body has no `return` statement on its main path,
despite the declared `Uint8ClampedArray` return type). -/
theorem filledArray_returns_undefined (fuel : Nat) (points : List XYPoint)
    (width height : ℚ) (r : Option (List (ℚ × ℚ)) × List (ℚ × ℚ))
    (h : slpfFilledArray fuel points width height = .ok r) : r.1 = none := by
  rw [slpfFilledArray] at h
  split at h
  · cases h
    rfl
  · rw [slpfFilledAfterEdges] at h
    split at h
    · cases h
    · split at h
      · cases h
        rfl
      · cases h
      · cases h

theorem filledArray_square_run :
    slpfFilledArray 8 squarePoints 10 10 = .ok (none, []) := by
  rw [slpfFilled_eq_loop 8 squarePoints 10 10 [squareEdgeTop, squareEdgeBottom]
    (by norm_num [squarePoints]) square_ET (by simp) 0
    (by show getYMin squareEdgeBottom = 0; norm_num [getYMin, squareEdgeBottom])]
  rw [scanLoopFill_step 8 7 (by norm_num) _ _ _ _ _ _ _ (by simp) square_step0 rfl]
  norm_num
  rw [scanLoopFill_step 7 6 (by norm_num) _ _ _ _ _ _ _ (by simp)
    (square_stepMid 1 (by norm_num)) rfl]
  norm_num
  rw [scanLoopFill_step 6 5 (by norm_num) _ _ _ _ _ _ _ (by simp)
    (square_stepMid 2 (by norm_num)) rfl]
  norm_num
  rw [scanLoopFill_step 5 4 (by norm_num) _ _ _ _ _ _ _ (by simp)
    (square_stepMid 3 (by norm_num)) rfl]
  norm_num
  rw [scanLoopFill_step 4 3 (by norm_num) _ _ _ _ _ _ _ (by simp) square_step4 rfl]
  rw [scanLoopFill_exit]
  norm_num

theorem filledArray_returns_undefined_witness :
    slpfFilledArray 8 squarePoints 10 10 = .ok (none, []) ∧
      ((none, ([] : List (ℚ × ℚ))) :
        Option (List (ℚ × ℚ)) × List (ℚ × ℚ)).1 = none :=
  ⟨filledArray_square_run,
    filledArray_returns_undefined 8 squarePoints 10 10 _ filledArray_square_run⟩


theorem moveEdgesGo_spec (yScan : ℚ) :
    ∀ (ETr AET : List Edge), ∃ moved : List Edge,
      ETr = moved ++ (moveEdgesGo yScan ETr AET).1 ∧
      (moveEdgesGo yScan ETr AET).2 = AET ++ moved
  | [], AET => ⟨[], by simp [moveEdgesGo]⟩
  | e :: rest, AET => by
    rw [moveEdgesGo]
    by_cases h : yScan = getYMin e
    · rw [if_pos h]
      obtain ⟨m, h1, h2⟩ := moveEdgesGo_spec yScan rest (AET ++ [e])
      refine ⟨e :: m, ?_, ?_⟩
      · rw [List.cons_append, ← h1]
      · rw [h2, List.append_assoc]
        rfl
    · rw [if_neg h]
      exact ⟨[], by simp⟩

theorem moveEdges_spec (yScan : ℚ) (ET AET : List Edge) :
    ∃ moved : List Edge, ET = (moveEdges yScan ET AET).1 ++ moved ∧
      (moveEdges yScan ET AET).2 = AET ++ moved.reverse := by
  obtain ⟨m, h1, h2⟩ := moveEdgesGo_spec yScan ET.reverse AET
  refine ⟨m.reverse, ?_, ?_⟩
  · have h3 := congrArg List.reverse h1
    simpa [moveEdges] using h3
  · simpa [moveEdges] using h2

theorem drop_split_last {α : Type} (l : List α) (n : Nat) (hl : l ≠ [])
    (hn : n ≤ l.length - 1) :
    l.drop n = l.dropLast.drop n ++ [l.getLast hl] := by
  conv_lhs => rw [← List.dropLast_append_getLast hl]
  rw [List.drop_append_of_le_length (by simp [List.length_dropLast]; omega)]

theorem removeEdgesGo_perm (yScan : ℚ) :
    ∀ (fuel : Nat) (AET : List Edge) (i : Nat), AET.length - i ≤ fuel →
      List.Perm (removeEdgesGo yScan fuel AET i)
        (AET.take i ++ (AET.drop i).filter (fun e => decide (¬ yScan ≥ getYMax e))) := by
  intro fuel
  induction fuel with
  | zero =>
    intro AET i hi
    simp only [removeEdgesGo]
    rw [List.take_of_length_le (by omega), List.drop_eq_nil_of_le (by omega)]
    simp
  | succ fuel ih =>
    intro AET i hi
    by_cases h : i < AET.length
    · simp only [removeEdgesGo]
      rw [dif_pos h]
      by_cases hd : yScan ≥ getYMax (AET.get ⟨i, h⟩)
      · rw [if_pos hd]
        have hne2 : AET ≠ [] :=
          List.ne_nil_of_length_pos (Nat.lt_of_le_of_lt (Nat.zero_le i) h)
        have hdB : (decide (¬ yScan ≥ getYMax AET[i])) = false := by
          simp only [decide_eq_false_iff_not, Decidable.not_not]
          simpa using hd
        have hAdrop : AET.drop i = AET[i] :: AET.drop (i + 1) :=
          List.drop_eq_getElem_cons h
        by_cases h2 : i < AET.dropLast.length
        · rw [if_pos h2]
          have h2l : i < AET.length - 1 := by
            simpa [List.length_dropLast] using h2
          have hB : (AET.dropLast.set i (AET.getLast hne2)).length - i ≤ fuel := by
            simp only [List.length_set, List.length_dropLast]
            omega
          refine (ih _ i hB).trans ?_
          have hBtake : (AET.dropLast.set i (AET.getLast hne2)).take i = AET.take i := by
            rw [List.set_take,
              List.set_eq_of_length_le (by simp [List.length_take]),
              List.dropLast_eq_take, List.take_take, min_eq_left (by omega)]
          have hBdrop : (AET.dropLast.set i (AET.getLast hne2)).drop i =
              AET.getLast hne2 :: AET.dropLast.drop (i + 1) := by
            rw [List.drop_set, if_neg (by omega), Nat.sub_self,
              List.drop_eq_getElem_cons h2, List.set_cons_zero]
          have hsplit : AET.drop (i + 1) =
              AET.dropLast.drop (i + 1) ++ [AET.getLast hne2] :=
            drop_split_last AET (i + 1) hne2 (by omega)
          have hR : AET.take i ++
                (AET.drop i).filter (fun e => decide (¬ yScan ≥ getYMax e)) =
              AET.take i ++
                ((AET.dropLast.drop (i + 1)).filter (fun e => decide (¬ yScan ≥ getYMax e)) ++
                  ([AET.getLast hne2]).filter (fun e => decide (¬ yScan ≥ getYMax e))) := by
            rw [hAdrop, List.filter_cons, hdB]
            simp only [Bool.false_eq_true, if_false]
            rw [hsplit, List.filter_append]
          rw [hBtake, hBdrop, hR,
            show (AET.getLast hne2 :: AET.dropLast.drop (i + 1)) =
              [AET.getLast hne2] ++ AET.dropLast.drop (i + 1) from rfl,
            List.filter_append]
          exact List.Perm.append_left _ List.perm_append_comm
        · rw [if_neg h2]
          have hi2 : i = AET.length - 1 := by
            simp only [List.length_dropLast] at h2
            omega
          have h3 := ih AET.dropLast (i + 1)
            (by simp only [List.length_dropLast]; omega)
          have hR : AET.take i ++
                (AET.drop i).filter (fun e => decide (¬ yScan ≥ getYMax e)) =
              AET.take i := by
            rw [hAdrop, List.drop_eq_nil_of_le (by omega), List.filter_cons, hdB]
            simp
          rw [hR]
          refine h3.trans ?_
          rw [List.take_of_length_le (by simp only [List.length_dropLast]; omega),
            List.drop_eq_nil_of_le (by simp only [List.length_dropLast]; omega),
            List.dropLast_eq_take, ← hi2]
          simp only [List.filter_nil, List.append_nil]
          exact List.Perm.refl _
      · rw [if_neg hd]
        have hdT : (decide (¬ yScan ≥ getYMax AET[i])) = true := by
          simp only [decide_eq_true_eq]
          simpa using hd
        have heq : AET.take i ++
              (AET.drop i).filter (fun e => decide (¬ yScan ≥ getYMax e)) =
            AET.take (i + 1) ++
              (AET.drop (i + 1)).filter (fun e => decide (¬ yScan ≥ getYMax e)) := by
          rw [List.drop_eq_getElem_cons h, List.filter_cons, hdT, if_pos rfl,
            List.take_succ, List.getElem?_eq_getElem h, Option.toList_some,
            List.append_assoc]
          rfl
        rw [heq]
        exact ih AET (i + 1) (by omega)
    · simp only [removeEdgesGo]
      rw [dif_neg h, List.take_of_length_le (by omega),
        List.drop_eq_nil_of_le (by omega)]
      simp

theorem removeEdges_perm (yScan : ℚ) (AET : List Edge) :
    List.Perm (removeEdges yScan AET)
      (AET.filter (fun e => decide (¬ yScan ≥ getYMax e))) := by
  have h := removeEdgesGo_perm yScan (AET.length + 1) AET 0 (by omega)
  simpa using h


theorem edgeStep_decompose (yScan : ℚ) (s : List Edge × List Edge) :
    ∃ moved : List Edge, s.1 = (edgeStep yScan s).1 ++ moved ∧
      List.Subperm (edgeStep yScan s).2 (s.2 ++ moved) := by
  obtain ⟨moved, h1, h2⟩ := moveEdges_spec yScan s.1 s.2
  refine ⟨moved, by simpa [edgeStep] using h1, ?_⟩
  have p1 : List.Perm (edgeStep yScan s).2
      (removeEdges yScan (moveEdges yScan s.1 s.2).2) := by
    simp only [edgeStep]
    exact jsSort_perm _ _
  have p2 := removeEdges_perm yScan (moveEdges yScan s.1 s.2).2
  have p3 : List.Sublist
      (((moveEdges yScan s.1 s.2).2).filter (fun e => decide (¬ yScan ≥ getYMax e)))
      ((moveEdges yScan s.1 s.2).2) :=
    List.filter_sublist _
  have hsub : List.Subperm (edgeStep yScan s).2 ((moveEdges yScan s.1 s.2).2) :=
    ((p1.trans p2).subperm).trans p3.subperm
  rw [h2] at hsub
  refine hsub.trans ?_
  exact (List.Perm.append_left s.2 (List.reverse_perm moved)).subperm

theorem edgeStep_conserve (yScan : ℚ) (s : List Edge × List Edge) :
    List.Subperm ((edgeStep yScan s).1 ++ (edgeStep yScan s).2) (s.1 ++ s.2) := by
  obtain ⟨moved, h1, h2⟩ := edgeStep_decompose yScan s
  have hsub : List.Subperm ((edgeStep yScan s).1 ++ (edgeStep yScan s).2)
      ((edgeStep yScan s).1 ++ (s.2 ++ moved)) :=
    (List.subperm_append_left _).mpr h2
  refine hsub.trans ?_
  have hperm : List.Perm ((edgeStep yScan s).1 ++ (s.2 ++ moved)) (s.1 ++ s.2) := by
    refine (List.Perm.append_left _ List.perm_append_comm).trans ?_
    rw [← List.append_assoc, ← h1]
  exact hperm.subperm

theorem edgeIter_succ (n : Nat) (yScan : ℚ) (s : List Edge × List Edge) :
    edgeIter (n + 1) yScan s = edgeStep (yScan + n) (edgeIter n yScan s) := by
  induction n generalizing yScan s with
  | zero =>
    show edgeStep yScan s = edgeStep (yScan + ((0 : ℕ) : ℚ)) s
    norm_num
  | succ n ih =>
    show edgeIter (n + 1) (yScan + 1) (edgeStep yScan s) = _
    rw [ih]
    have hcast : yScan + 1 + (n : ℚ) = yScan + ((n + 1 : ℕ) : ℚ) := by
      push_cast
      ring
    rw [hcast]
    rfl

theorem edgeIter_subperm (n : Nat) (yScan : ℚ) (s : List Edge × List Edge) :
    List.Subperm ((edgeIter n yScan s).1 ++ (edgeIter n yScan s).2) (s.1 ++ s.2) := by
  induction n generalizing yScan s with
  | zero => exact List.Subperm.refl _
  | succ n ih =>
    exact (ih (yScan + 1) (edgeStep yScan s)).trans (edgeStep_conserve yScan s)

theorem subperm_nodup {α : Type} {l1 l2 : List α} (h : List.Subperm l1 l2)
    (h2 : l2.Nodup) : l1.Nodup := by
  obtain ⟨l, hp, hs⟩ := h
  exact hp.nodup (List.Nodup.sublist hs h2)

/-- C7: throughout the scanline loop of `slpfPoints` (whose per-iteration
AET management is `edgeStep`, iterated by `edgeIter` from the initial
state): (i) the edges still in the Edge Table or the Active Edge Table form
a sub-multiset of the built Edge Table, so every edge produced by the edge
builder is in exactly one of Edge Table, AET, or the discarded remainder;
(ii) each iteration removes a suffix `moved` from the Edge Table and the
next AET draws only from the previous AET and `moved` — movement is
one-directional, ET → AET → discarded, as the scanline advances; and
(iii) when the builder output has no duplicates (distinct edge objects),
the AET never holds duplicate edges. -/
theorem edge_partition_invariant (points : List XYPoint)
    (hND : (pointsToEdges points).Nodup) (y0 : ℚ) (n : Nat) :
    List.Subperm ((edgeIter n y0 (initialEdgeState points)).1 ++
        (edgeIter n y0 (initialEdgeState points)).2)
      (jsSort etLe (pointsToEdges points)) ∧
    (∃ moved : List Edge,
      (edgeIter n y0 (initialEdgeState points)).1 =
        (edgeIter (n + 1) y0 (initialEdgeState points)).1 ++ moved ∧
      List.Subperm (edgeIter (n + 1) y0 (initialEdgeState points)).2
        ((edgeIter n y0 (initialEdgeState points)).2 ++ moved)) ∧
    ((edgeIter n y0 (initialEdgeState points)).2).Nodup := by
  have hconserve := edgeIter_subperm n y0 (initialEdgeState points)
  rw [show (initialEdgeState points).1 ++ (initialEdgeState points).2 =
      jsSort etLe (pointsToEdges points) by simp [initialEdgeState]] at hconserve
  refine ⟨hconserve, ?_, ?_⟩
  · obtain ⟨moved, h1, h2⟩ :=
      edgeStep_decompose (y0 + n) (edgeIter n y0 (initialEdgeState points))
    rw [← edgeIter_succ] at h1 h2
    exact ⟨moved, h1, h2⟩
  · have hsortND : (jsSort etLe (pointsToEdges points)).Nodup :=
      (jsSort_perm etLe (pointsToEdges points)).symm.nodup hND
    exact (subperm_nodup hconserve hsortND).of_append_right


theorem square_edges_builder :
    pointsToEdges squarePoints = [squareEdgeBottom, squareEdgeTop] := by
  norm_num [squarePoints, pointsToEdges, pointsToEdgesGo, squareEdgeBottom,
    squareEdgeTop]

theorem edge_partition_invariant_witness :
    (pointsToEdges squarePoints).Nodup ∧
      (List.Subperm ((edgeIter 1 0 (initialEdgeState squarePoints)).1 ++
          (edgeIter 1 0 (initialEdgeState squarePoints)).2)
        (jsSort etLe (pointsToEdges squarePoints)) ∧
      (∃ moved : List Edge,
        (edgeIter 1 0 (initialEdgeState squarePoints)).1 =
          (edgeIter (1 + 1) 0 (initialEdgeState squarePoints)).1 ++ moved ∧
        List.Subperm (edgeIter (1 + 1) 0 (initialEdgeState squarePoints)).2
          ((edgeIter 1 0 (initialEdgeState squarePoints)).2 ++ moved)) ∧
      ((edgeIter 1 0 (initialEdgeState squarePoints)).2).Nodup) := by
  have hnd : (pointsToEdges squarePoints).Nodup := by
    rw [square_edges_builder]
    norm_num [squareEdgeBottom, squareEdgeTop]
  exact ⟨hnd, edge_partition_invariant squarePoints hnd 0 1⟩

end Slpf
